import Mathlib

/-!
Shallow embedding of the TDMS segment/metadata decoder of `src/tdms_reader.rs`
(crate `rstdms`).  The decoder walks a seekable byte source segment by segment,
validates the 4-byte magic, parses the 28-byte lead-in, dispatches metadata
parsing (object list, raw-data-index records, properties) and accumulates an
ordered list of segment descriptors together with an object-path interner, an
arena of raw-data-index records, a reuse cache and a per-object property store.

Machine integers are modelled as `Nat` with explicit `% 2 ^ 64` where u64
overflow can occur.  The byte source is modelled as an in-memory buffer with a
cursor (`ByteStream`); a `read` into an `n`-byte buffer returns
`min n remaining` bytes, the behaviour of `File`/`Cursor` sources, and never
raises an I/O error.  Rust panics (`unimplemented!`) are modelled by a
distinguished `panic` outcome, kept separate from returned errors.

Helper modules of the crate that are not part of the given sources
(`error.rs`, `types.rs`, `toc.rs`, `object_path.rs`, `properties.rs`) are
modelled from the spec; each such definition is marked `Modelled from the
spec:` in its doc comment.
-/

/-- Modelled from the spec: the error kinds of §7 (`error.rs` is not among the
given sources).  The decoder in `tdms_reader.rs` produces string-formatted
`TdmsError` values; each distinct message is mapped onto its spec error kind,
carrying the values the message reports.  `IoError` is the underlying-source
failure kind; an in-memory source never produces it. -/
inductive TdmsReadError where
  | IoError : TdmsReadError
  | TruncatedInput : TdmsReadError
  | InvalidSegmentHeader (position : Nat) (header : List Nat) : TdmsReadError
  | NotImplemented : TdmsReadError
  | MissingPreviousIndex : TdmsReadError
  | UnknownType (code : Nat) : TdmsReadError
  | InvalidDimension (dimension : Nat) : TdmsReadError
  | UnsupportedDataType : TdmsReadError
  | CorruptSegment : TdmsReadError
deriving DecidableEq

/-- An in-memory seekable byte source: the full buffer plus a cursor. -/
structure ByteStream where
  data : List Nat
  pos : Nat
deriving DecidableEq

/-- Number of bytes available from the cursor to the end of the buffer. -/
def ByteStream.remaining (s : ByteStream) : Nat := s.data.length - s.pos

/-- The bytes from the cursor to the end of the buffer. -/
def ByteStream.rest (s : ByteStream) : List Nat := s.data.drop s.pos

/-- The next `n` bytes at the cursor (fewer if the buffer ends sooner). -/
def ByteStream.peek (s : ByteStream) (n : Nat) : List Nat := (s.data.drop s.pos).take n

/-- Advance the cursor by `n` bytes. -/
def ByteStream.advance (s : ByteStream) (n : Nat) : ByteStream := ⟨s.data, s.pos + n⟩

/-- Outcome of a fallible read: success and failure both carry the stream state
at that point (the cursor has advanced past whatever was consumed); `panic`
models a Rust panic (`unimplemented!`), which aborts without a value. -/
inductive RResult (α : Type) where
  | ok (val : α) (s : ByteStream) : RResult α
  | err (e : TdmsReadError) (s : ByteStream) : RResult α
  | panic : RResult α
deriving DecidableEq

/-- Sequencing of fallible reads, mirroring Rust's `?` operator. -/
def RResult.bind {α β : Type} (x : RResult α) (f : α → ByteStream → RResult β) : RResult β :=
  match x with
  | .ok a s => f a s
  | .err e s => .err e s
  | .panic => .panic

/-- Modelled from the spec: §4.1, every fixed-width read consumes exactly its
field width and fails with `TruncatedInput` when fewer bytes are available than
requested (the cursor is left where it was). -/
def readBytes (n : Nat) (s : ByteStream) : RResult (List Nat) :=
  if n ≤ s.remaining then .ok (s.peek n) (s.advance n) else .err .TruncatedInput s

/-- Value of a little-endian byte list. -/
def leValue : List Nat → Nat
  | [] => 0
  | b :: bs => b + 256 * leValue bs

/-- Little-endian encoding of `v` in `k` bytes. -/
def encodeLE : Nat → Nat → List Nat
  | 0, _ => []
  | Nat.succ k, v => (v % 256) :: encodeLE k (v / 256)

/-- Modelled from the spec: §4.1, little-endian `u32` read. -/
def read_uint32 (s : ByteStream) : RResult Nat :=
  (readBytes 4 s).bind fun bs s1 => .ok (leValue bs) s1

/-- Modelled from the spec: §4.1, little-endian `u64` read. -/
def read_uint64 (s : ByteStream) : RResult Nat :=
  (readBytes 8 s).bind fun bs s1 => .ok (leValue bs) s1

/-- Modelled from the spec: §4.1, little-endian `i32` read (two's complement). -/
def read_int32 (s : ByteStream) : RResult Int :=
  (readBytes 4 s).bind fun bs s1 =>
    .ok (if leValue bs < 2 ^ 31 then (leValue bs : Int) else (leValue bs : Int) - 2 ^ 32) s1

/-- Modelled from the spec: §4.1, length-prefixed string read (`u32` byte
length, then that many bytes).  Strings are kept as their raw byte lists. -/
def read_string (s : ByteStream) : RResult (List Nat) :=
  (read_uint32 s).bind fun len s1 => readBytes len s1

/-- Modelled from the spec: §2/§3, the type tag registry of `types.rs` — the
fixed-width numeric kinds, the variable-width string kind and a void tag. -/
inductive TdsType where
  | Void | I8 | I16 | I32 | I64 | U8 | U16 | U32 | U64
  | SingleFloat | DoubleFloat | String
deriving DecidableEq

/-- Modelled from the spec: §4.4 step 5, decoding a `u32` type code; unknown
codes fail with `UnknownType`. -/
def TdsType.from_u32 (code : Nat) : Except TdmsReadError TdsType :=
  match code with
  | 0 => .ok .Void
  | 1 => .ok .I8
  | 2 => .ok .I16
  | 3 => .ok .I32
  | 4 => .ok .I64
  | 5 => .ok .U8
  | 6 => .ok .U16
  | 7 => .ok .U32
  | 8 => .ok .U64
  | 9 => .ok .SingleFloat
  | 10 => .ok .DoubleFloat
  | 0x20 => .ok .String
  | c => .error (.UnknownType c)

/-- Modelled from the spec: §2, each fixed kind has a known byte width; the
string kind (and void) has none. -/
def TdsType.size : TdsType → Option Nat
  | .Void => none
  | .I8 => some 1
  | .I16 => some 2
  | .I32 => some 4
  | .I64 => some 8
  | .U8 => some 1
  | .U16 => some 2
  | .U32 => some 4
  | .U64 => some 8
  | .SingleFloat => some 4
  | .DoubleFloat => some 8
  | .String => none

/-- Modelled from the spec: §4.4 step 2, TOC bit test (`toc.rs`); the flag bit
values are the standard TDMS table-of-contents bits. -/
def hasFlag (mask flag : Nat) : Bool := (mask &&& flag) != 0

/-- Modelled from the spec: the "has metadata" TOC flag bit. -/
def kTocMetaData : Nat := 2

/-- Modelled from the spec: the "has new object list" TOC flag bit. -/
def kTocNewObjList : Nat := 4

/-- Modelled from the spec: §4.2, the object path interner (`object_path.rs`).
Ids are densely assigned in first-seen order: the id of a path is its index in
the list of distinct paths seen so far. -/
structure ObjectPathCache where
  paths : List (List Nat)
deriving DecidableEq

/-- Modelled from the spec: §4.2, look `path` up; if absent assign the next
sequential id and store the path; return the (possibly newly created) id. -/
def ObjectPathCache.get_or_create_id (c : ObjectPathCache) (path : List Nat) :
    Nat × ObjectPathCache :=
  match c.paths.findIdx? (fun q => q == path) with
  | some i => (i, c)
  | none => (c.paths.length, ⟨c.paths ++ [path]⟩)

/-- Modelled from the spec: §3/§6, a decoded property (`properties.rs`): name,
type tag and the raw bytes of the type-tagged value. -/
structure TdmsProperty where
  name : List Nat
  data_type : TdsType
  value : List Nat
deriving DecidableEq

/-- Modelled from the spec: §6, decoding one property: 4-byte length-prefixed
name, 4-byte type tag, then a type-tagged value (fixed width, or
length-prefixed for strings). -/
def TdmsProperty.read (s : ByteStream) : RResult TdmsProperty :=
  (read_string s).bind fun name s1 =>
  (read_uint32 s1).bind fun code s2 =>
  match TdsType.from_u32 code with
  | .error e => .err e s2
  | .ok ty =>
    match ty.size with
    | some w => (readBytes w s2).bind fun v s3 => .ok ⟨name, ty, v⟩ s3
    | none =>
      if ty = TdsType.String then (read_string s2).bind fun v s3 => .ok ⟨name, ty, v⟩ s3
      else .err .UnsupportedDataType s2

/-- One decoded raw-data-index (shape) record, `RawDataIndex` in the source. -/
structure RawDataIndex where
  number_of_values : Nat
  data_type : TdsType
  data_size : Nat
deriving DecidableEq

/-- A segment object entry, `SegmentObject` in the source: `raw_data_index` is
the arena id of the object's shape, or `none` when it carries no data. -/
structure SegmentObject where
  object_id : Nat
  raw_data_index : Option Nat
deriving DecidableEq

/-- `SegmentObject::no_data` from the source. -/
def SegmentObject.no_data (object_id : Nat) : SegmentObject := ⟨object_id, none⟩

/-- `SegmentObject::with_data` from the source. -/
def SegmentObject.with_data (object_id : Nat) (raw_data_index : Nat) : SegmentObject :=
  ⟨object_id, some raw_data_index⟩

/-- A segment descriptor, `TdmsSegment` in the source. -/
structure TdmsSegment where
  data_position : Nat
  next_segment_position : Nat
  objects : List SegmentObject
deriving DecidableEq

/-- `RAW_DATA_INDEX_NO_DATA` from the source. -/
def RAW_DATA_INDEX_NO_DATA : Nat := 0xFFFFFFFF

/-- `RAW_DATA_INDEX_MATCHES_PREVIOUS` from the source. -/
def RAW_DATA_INDEX_MATCHES_PREVIOUS : Nat := 0x00000000

/-- `FORMAT_CHANGING_SCALER` from the source. -/
def FORMAT_CHANGING_SCALER : Nat := 0x00001269

/-- `DIGITAL_LINE_SCALER` from the source. -/
def DIGITAL_LINE_SCALER : Nat := 0x0000126A

/-- `RawDataIndexCache::set_raw_data_index` from the source: grow the backing
array with `none` padding when the object id is past the end, otherwise
overwrite in place. -/
def set_raw_data_index (c : List (Option Nat)) (object : Nat) (raw_data_index : Nat) :
    List (Option Nat) :=
  if c.length ≤ object then
    c ++ List.replicate (object - c.length) none ++ [some raw_data_index]
  else
    c.set object (some raw_data_index)

/-- `RawDataIndexCache::get_raw_data_index` from the source: a safe indexed
lookup returning `none` both for an empty slot and for an out-of-range id. -/
def get_raw_data_index (c : List (Option Nat)) (object : Nat) : Option Nat :=
  match c.get? object with
  | some o => o
  | none => none

/-- Session state of the decode, the fields of `TdmsReader` in the source:
the property store (association list keyed by object id), the path interner,
the raw-data-index arena (ids are list indices), the reuse cache and the
accumulated segment list. -/
structure ReaderState where
  properties : List (Nat × List TdmsProperty)
  object_paths : ObjectPathCache
  data_indexes : List RawDataIndex
  raw_data_index_cache : List (Option Nat)
  segments : List TdmsSegment
deriving DecidableEq

/-- The property store update of `read_object_metadata`:
`properties.entry(object_id).or_insert_with(Vec::new).push(property)` — append
to the object's list, creating a singleton entry when absent. -/
def pushProperty (m : List (Nat × List TdmsProperty)) (oid : Nat) (p : TdmsProperty) :
    List (Nat × List TdmsProperty) :=
  match m with
  | [] => [(oid, [p])]
  | (k, ps) :: rest =>
    if k = oid then (k, ps ++ [p]) :: rest else (k, ps) :: pushProperty rest oid p

/-- Lookup in the property store (`HashMap` access modelled on the
association list). -/
def lookupProps (m : List (Nat × List TdmsProperty)) (oid : Nat) :
    Option (List TdmsProperty) :=
  match m with
  | [] => none
  | (k, ps) :: rest => if k = oid then some ps else lookupProps rest oid

/-- `read_raw_data_index` from the source: read `data_type` (u32, decoded via
`TdsType::from_u32`), `dimension` (u32), `number_of_values` (u64); then reject
`dimension ≠ 1`; then compute `data_size` as width × count (u64 arithmetic)
for fixed-width types or read one more u64 as the literal byte length for the
string type. -/
def read_raw_data_index (s : ByteStream) : RResult RawDataIndex :=
  (read_uint32 s).bind fun data_type_code s1 =>
  match TdsType.from_u32 data_type_code with
  | .error e => .err e s1
  | .ok data_type =>
    (read_uint32 s1).bind fun dimension s2 =>
    (read_uint64 s2).bind fun number_of_values s3 =>
    if dimension ≠ 1 then .err (.InvalidDimension dimension) s3
    else
      match data_type.size with
      | some type_size =>
        .ok ⟨number_of_values, data_type, (type_size * number_of_values) % 2 ^ 64⟩ s3
      | none =>
        if data_type = TdsType.String then
          (read_uint64 s3).bind fun data_size s4 =>
          .ok ⟨number_of_values, data_type, data_size⟩ s4
        else .err .UnsupportedDataType s3

/-- One iteration of the object loop body of `read_object_metadata` up to the
property count: read the path, intern it, read the raw-data-index header and
branch on the sentinels exactly as the source `match` does. -/
def readSegmentObject (st : ReaderState) (s : ByteStream) :
    RResult (SegmentObject × ReaderState) :=
  (read_string s).bind fun object_path s1 =>
  let p := st.object_paths.get_or_create_id object_path
  let st1 : ReaderState := { st with object_paths := p.2 }
  (read_uint32 s1).bind fun raw_data_index_header s2 =>
  if raw_data_index_header = RAW_DATA_INDEX_NO_DATA then
    .ok (SegmentObject.no_data p.1, st1) s2
  else if raw_data_index_header = RAW_DATA_INDEX_MATCHES_PREVIOUS then
    match get_raw_data_index st1.raw_data_index_cache p.1 with
    | some raw_data_index_id => .ok (SegmentObject.with_data p.1 raw_data_index_id, st1) s2
    | none => .err .MissingPreviousIndex s2
  else if raw_data_index_header = FORMAT_CHANGING_SCALER then .panic
  else if raw_data_index_header = DIGITAL_LINE_SCALER then .panic
  else
    (read_raw_data_index s2).bind fun raw_data_index s3 =>
    let id := st1.data_indexes.length
    let st2 : ReaderState := { st1 with
      data_indexes := st1.data_indexes ++ [raw_data_index],
      raw_data_index_cache := set_raw_data_index st1.raw_data_index_cache p.1 id }
    .ok (SegmentObject.with_data p.1 id, st2) s3

/-- The property loop of `read_object_metadata`: read `n` properties,
appending each to the object's property list. -/
def readProperties : Nat → Nat → ReaderState → ByteStream → RResult ReaderState
  | 0, _, st, s => .ok st s
  | Nat.succ n, object_id, st, s =>
    (TdmsProperty.read s).bind fun property s1 =>
    readProperties n object_id
      { st with properties := pushProperty st.properties object_id property } s1

/-- The object loop of `read_object_metadata`: for each object, decode its
entry, push it, then decode its property count and properties. -/
def readObjectsLoop : Nat → ReaderState → ByteStream → List SegmentObject →
    RResult (List SegmentObject × ReaderState)
  | 0, st, s, acc => .ok (acc, st) s
  | Nat.succ n, st, s, acc =>
    (readSegmentObject st s).bind fun os s1 =>
    (read_uint32 s1).bind fun num_properties s2 =>
    (readProperties num_properties os.1.object_id os.2 s2).bind fun st2 s3 =>
    readObjectsLoop n st2 s3 (acc ++ [os.1])

/-- `read_object_metadata` from the source: panic (`unimplemented!`) when the
"has new object list" flag is unset, otherwise read the object count and run
the object loop. -/
def read_object_metadata (st : ReaderState) (toc_mask : Nat) (s : ByteStream) :
    RResult (List SegmentObject × ReaderState) :=
  if hasFlag toc_mask kTocNewObjList then
    (read_uint32 s).bind fun num_objects s1 => readObjectsLoop num_objects st s1 []
  else .panic

/-- The expected 4-byte segment magic `[0x54, 0x44, 0x53, 0x6d]`. -/
def expectedHeader : List Nat := [0x54, 0x44, 0x53, 0x6d]

/-- The magic-read loop of `read_segment`: keep issuing reads for the bytes of
the 4-byte header still missing; a read returning zero bytes ends the decode
with no header (`Ok(None)` in the source).  A read into an `n`-byte buffer
returns `min n remaining` bytes. -/
def readMagicLoop (bytesRead : Nat) (acc : List Nat) (s : ByteStream) :
    Option (List Nat) × ByteStream :=
  if h : bytesRead < 4 then
    if hg : min (4 - bytesRead) s.remaining = 0 then (none, s)
    else
      readMagicLoop (bytesRead + min (4 - bytesRead) s.remaining)
        (acc ++ s.peek (min (4 - bytesRead) s.remaining))
        (s.advance (min (4 - bytesRead) s.remaining))
  else (some acc, s)
termination_by 4 - bytesRead
decreasing_by
  have hpos : 0 < min (4 - bytesRead) s.remaining := Nat.pos_of_ne_zero hg
  omega

/-- Read the 4 magic bytes, starting with nothing read. -/
def readMagic (s : ByteStream) : Option (List Nat) × ByteStream := readMagicLoop 0 [] s

/-- `read_segment` from the source: read the magic (zero-byte read ends the
decode gracefully), validate it, read the lead-in (TOC mask, version, the two
u64 offsets), compute the absolute positions, then parse metadata when the
"has metadata" flag is set and panic (`unimplemented!`) otherwise. -/
def read_segment (st : ReaderState) (position : Nat) (s : ByteStream) :
    RResult (Option TdmsSegment × ReaderState) :=
  match readMagic s with
  | (none, s1) => .ok (none, st) s1
  | (some header_bytes, s1) =>
    if header_bytes = expectedHeader then
      (read_uint32 s1).bind fun toc_mask s2 =>
      (read_int32 s2).bind fun _version s3 =>
      (read_uint64 s3).bind fun next_segment_offset s4 =>
      (read_uint64 s4).bind fun raw_data_offset s5 =>
      let next_segment_position := (position + 28 + next_segment_offset) % 2 ^ 64
      let raw_data_position := (position + 28 + raw_data_offset) % 2 ^ 64
      if hasFlag toc_mask kTocMetaData then
        (read_object_metadata st toc_mask s5).bind fun r s6 =>
        .ok (some ⟨raw_data_position, next_segment_position, r.1⟩, r.2) s6
      else .panic
    else .err (.InvalidSegmentHeader position header_bytes) s1

/-- Outcome of the whole-file segment loop: `outOfFuel` marks exhaustion of
the step budget of the model (the source loop has no such bound). -/
inductive LoopResult where
  | ok (st : ReaderState) (s : ByteStream) : LoopResult
  | err (e : TdmsReadError) : LoopResult
  | panic : LoopResult
  | outOfFuel : LoopResult
deriving DecidableEq

/-- `read_segments` from the source, with an explicit step budget: take the
current position, decode one segment; `none` ends the loop, otherwise seek to
the segment's `next_segment_position` and push the segment. -/
def readSegmentsLoop : Nat → ReaderState → ByteStream → LoopResult
  | 0, _, _ => .outOfFuel
  | Nat.succ fuel, st, s =>
    match read_segment st s.pos s with
    | .err e _ => .err e
    | .panic => .panic
    | .ok (none, st1) s1 => .ok st1 s1
    | .ok (some segment, st1) s1 =>
      readSegmentsLoop fuel { st1 with segments := st1.segments ++ [segment] }
        ⟨s1.data, segment.next_segment_position⟩

/-- `TdmsReader::new` from the source: the empty session state. -/
def TdmsReader.new : ReaderState := ⟨[], ⟨[]⟩, [], [], []⟩

/-- `read_metadata` from the source: run the segment loop from a fresh state. -/
def read_metadata (fuel : Nat) (s : ByteStream) : LoopResult :=
  readSegmentsLoop fuel TdmsReader.new s

/-- Property-store evolution: every entry of `m` persists in `m2` with its
list extended on the right only (append-only accumulation). -/
def PropExtends (m m2 : List (Nat × List TdmsProperty)) : Prop :=
  ∀ oid ps, lookupProps m oid = some ps → ∃ qs, lookupProps m2 oid = some (ps ++ qs)

/-- Property-store shape: no entry holds an empty list (an entry exists only
because at least one property was pushed for that object). -/
def PropsNonempty (m : List (Nat × List TdmsProperty)) : Prop :=
  ∀ oid ps, lookupProps m oid = some ps → ps ≠ []

/-- Synthetic-file builder: the metadata entry of one object declared with the
"no data" sentinel and zero properties. -/
def objBytes (p : List Nat) : List Nat :=
  encodeLE 4 p.length ++ p ++ encodeLE 4 RAW_DATA_INDEX_NO_DATA ++ encodeLE 4 0

/-- Synthetic-file builder: the object entries of one segment. -/
def objsBytes (objs : List (List Nat)) : List Nat := (objs.map objBytes).flatten

/-- Synthetic-file builder: a segment's metadata block — object count, then
the object entries. -/
def metaBytes (objs : List (List Nat)) : List Nat :=
  encodeLE 4 objs.length ++ objsBytes objs

/-- Synthetic-file builder: one well-formed segment — magic, TOC mask with the
metadata and new-object-list flags, version 1, both offsets equal to the
metadata length (no raw data), then the metadata block. -/
def segBytes (objs : List (List Nat)) : List Nat :=
  expectedHeader ++ encodeLE 4 6 ++ encodeLE 4 1 ++
    encodeLE 8 (metaBytes objs).length ++ encodeLE 8 (metaBytes objs).length ++
    metaBytes objs

/-- Synthetic-file builder: a whole file of well-formed segments. -/
def fileBytes (descs : List (List (List Nat))) : List Nat := (descs.map segBytes).flatten

/-- Well-formedness of a synthetic file description: every object count and
path length fits its u32 length prefix. -/
def WFdescs (descs : List (List (List Nat))) : Prop :=
  ∀ d ∈ descs, d.length < 2 ^ 32 ∧ ∀ p ∈ d, p.length < 2 ^ 32

/-- Session-state evolution across one decoding step: the segments list is
unchanged, the property store is only extended on the right, and
nonemptiness of its entries is preserved. -/
def StEvolves (st st2 : ReaderState) : Prop :=
  st2.segments = st.segments ∧ PropExtends st.properties st2.properties ∧
    (PropsNonempty st.properties → PropsNonempty st2.properties)

/-- The successive segment end positions of a synthetic file starting at
`base`: the absolute boundary after each segment, in file order. -/
def segEnds (base : Nat) : List (List (List Nat)) → List Nat
  | [] => []
  | d :: ds => (base + (segBytes d).length) :: segEnds (base + (segBytes d).length) ds


theorem ByteStream.remaining_eq (s : ByteStream) : s.remaining = s.rest.length := by
  simp [ByteStream.remaining, ByteStream.rest]

theorem ByteStream.rest_advance (s : ByteStream) (n : Nat) :
    (s.advance n).rest = s.rest.drop n := by
  simp [ByteStream.rest, ByteStream.advance, List.drop_drop, Nat.add_comm]

theorem encodeLE_length (k v : Nat) : (encodeLE k v).length = k := by
  induction k generalizing v with
  | zero => rfl
  | succ k ih => simp [encodeLE, ih]

theorem leValue_encodeLE (k v : Nat) (h : v < 256 ^ k) : leValue (encodeLE k v) = v := by
  induction k generalizing v with
  | zero => simp [encodeLE, leValue]; omega
  | succ k ih =>
    have hdiv : v / 256 < 256 ^ k := by
      rw [Nat.div_lt_iff_lt_mul (by norm_num : 0 < 256)]
      calc v < 256 ^ (k + 1) := h
        _ = 256 ^ k * 256 := by ring
    simp [encodeLE, leValue, ih (v / 256) hdiv]
    omega

theorem readBytes_of_rest (s : ByteStream) (bs r : List Nat) (n : Nat)
    (h : s.rest = bs ++ r) (hn : bs.length = n) :
    readBytes n s = .ok bs (s.advance n) ∧ (s.advance n).rest = r := by
  have hrem : s.remaining = bs.length + r.length := by
    rw [ByteStream.remaining_eq, h]; simp
  constructor
  · rw [readBytes, if_pos (by omega)]
    have : s.peek n = bs := by
      show (s.data.drop s.pos).take n = bs
      rw [show s.data.drop s.pos = s.rest from rfl, h, ← hn, List.take_left]
    rw [this]
  · rw [ByteStream.rest_advance, h, ← hn, List.drop_left]

theorem read_uint32_of_rest (s : ByteStream) (v : Nat) (r : List Nat)
    (h : s.rest = encodeLE 4 v ++ r) (hv : v < 2 ^ 32) :
    read_uint32 s = .ok v (s.advance 4) ∧ (s.advance 4).rest = r := by
  have hb := readBytes_of_rest s (encodeLE 4 v) r 4 h (encodeLE_length 4 v)
  constructor
  · rw [read_uint32, hb.1]
    show RResult.ok (leValue (encodeLE 4 v)) _ = _
    rw [leValue_encodeLE 4 v (by norm_num at hv ⊢; omega)]
  · exact hb.2

theorem read_uint64_of_rest (s : ByteStream) (v : Nat) (r : List Nat)
    (h : s.rest = encodeLE 8 v ++ r) (hv : v < 2 ^ 64) :
    read_uint64 s = .ok v (s.advance 8) ∧ (s.advance 8).rest = r := by
  have hb := readBytes_of_rest s (encodeLE 8 v) r 8 h (encodeLE_length 8 v)
  constructor
  · rw [read_uint64, hb.1]
    show RResult.ok (leValue (encodeLE 8 v)) _ = _
    rw [leValue_encodeLE 8 v (by norm_num at hv ⊢; omega)]
  · exact hb.2

theorem read_int32_of_rest (s : ByteStream) (v : Nat) (r : List Nat)
    (h : s.rest = encodeLE 4 v ++ r) :
    ∃ z, read_int32 s = .ok z (s.advance 4) ∧ (s.advance 4).rest = r := by
  have hb := readBytes_of_rest s (encodeLE 4 v) r 4 h (encodeLE_length 4 v)
  exact ⟨_, by rw [read_int32, hb.1]; rfl, hb.2⟩

theorem read_string_of_rest (s : ByteStream) (p r : List Nat)
    (h : s.rest = encodeLE 4 p.length ++ p ++ r) (hp : p.length < 2 ^ 32) :
    read_string s = .ok p (s.advance (4 + p.length)) ∧
      (s.advance (4 + p.length)).rest = r := by
  have h32 := read_uint32_of_rest s p.length (p ++ r) (by rw [h, List.append_assoc]) hp
  have hb := readBytes_of_rest (s.advance 4) p r p.length h32.2 rfl
  refine ⟨?_, ?_⟩
  · rw [read_string, h32.1]
    show readBytes p.length (s.advance 4) = _
    rw [hb.1]
    show RResult.ok p ((s.advance 4).advance p.length) = _
    simp [ByteStream.advance, Nat.add_assoc]
  · have : (s.advance 4).advance p.length = s.advance (4 + p.length) := by
      simp [ByteStream.advance, Nat.add_assoc]
    rw [← this]; exact hb.2

theorem readMagic_of_remaining_ge (s : ByteStream) (h : 4 ≤ s.remaining) :
    readMagic s = (some (s.peek 4), s.advance 4) := by
  rw [readMagic, readMagicLoop]
  have hmin : min (4 - 0) s.remaining = 4 := by omega
  rw [dif_pos (by omega)]
  rw [hmin]
  rw [dif_neg (by omega)]
  rw [readMagicLoop]
  rw [dif_neg (by omega)]
  simp

theorem readMagic_of_remaining_lt (s : ByteStream) (h : s.remaining < 4) :
    readMagic s = (none, s.advance s.remaining) := by
  rw [readMagic, readMagicLoop, dif_pos (by omega : (0:Nat) < 4)]
  by_cases h0 : s.remaining = 0
  · rw [dif_pos (by omega)]
    simp [ByteStream.advance, h0]
  · have hmin : min (4 - 0) s.remaining = s.remaining := by omega
    rw [hmin, dif_neg h0]
    rw [readMagicLoop, dif_pos (by omega : 0 + s.remaining < 4)]
    have hrem2 : (s.advance s.remaining).remaining = 0 := by
      simp [ByteStream.advance, ByteStream.remaining] at *
      omega
    rw [hrem2]
    simp

theorem get_raw_data_index_eq (c : List (Option Nat)) (object : Nat) :
    get_raw_data_index c object = (c.get? object).getD none := by
  rw [get_raw_data_index]
  cases c.get? object <;> simp

theorem get_set_self (c : List (Option Nat)) (oid id : Nat) :
    get_raw_data_index (set_raw_data_index c oid id) oid = some id := by
  rw [get_raw_data_index_eq, set_raw_data_index]
  by_cases h : c.length ≤ oid
  · rw [if_pos h]
    rw [List.get?_eq_getElem?]
    rw [List.getElem?_append_right (by simp; omega)]
    have hidx : oid - (c ++ List.replicate (oid - c.length) none).length = 0 := by
      simp; omega
    rw [hidx]
    rfl
  · rw [if_neg h]
    rw [List.get?_eq_getElem?]
    rw [List.getElem?_set_eq_of_lt _ (by omega)]
    rfl

theorem get_set_other (c : List (Option Nat)) (oid id oid2 : Nat) (h : oid2 ≠ oid) :
    get_raw_data_index (set_raw_data_index c oid id) oid2 = get_raw_data_index c oid2 := by
  rw [get_raw_data_index_eq, get_raw_data_index_eq, set_raw_data_index]
  rw [List.get?_eq_getElem?, List.get?_eq_getElem?]
  by_cases hle : c.length ≤ oid
  · rw [if_pos hle]
    by_cases h2 : oid2 < c.length
    · rw [List.getElem?_append_left (by simp; omega)]
      rw [List.getElem?_append_left h2]
    · have hc : getElem? c oid2 = (none : Option (Option Nat)) := by
        rw [List.getElem?_eq_none (by omega)]
      rw [hc]
      by_cases h3 : oid2 < oid
      · rw [List.getElem?_append_left (by simp; omega)]
        rw [List.getElem?_append_right (by omega)]
        rw [List.getElem?_replicate_of_lt (by omega)]
        rfl
      · rw [List.getElem?_append_right (by simp; omega)]
        have hne : oid2 - (c ++ List.replicate (oid - c.length) none).length ≠ 0 := by
          simp; omega
        rcases Nat.exists_eq_succ_of_ne_zero hne with ⟨k, hk⟩
        rw [hk]
        simp
  · rw [if_neg hle]
    rw [List.getElem?_set_ne (by omega)]

theorem get_nil (oid : Nat) : get_raw_data_index [] oid = none := by
  rw [get_raw_data_index_eq]
  simp

theorem set_length_gt (c : List (Option Nat)) (oid id : Nat) :
    oid < (set_raw_data_index c oid id).length := by
  rw [set_raw_data_index]
  by_cases h : c.length ≤ oid
  · rw [if_pos h]; simp; omega
  · rw [if_neg h]; simp; omega

theorem lookup_push_self (m : List (Nat × List TdmsProperty)) (oid : Nat) (p : TdmsProperty) :
    lookupProps (pushProperty m oid p) oid
      = some ((lookupProps m oid).getD [] ++ [p]) := by
  induction m with
  | nil => simp [pushProperty, lookupProps]
  | cons e rest ih =>
    by_cases h : e.1 = oid
    · simp [pushProperty, lookupProps, h]
    · simp [pushProperty, lookupProps, h, ih]

theorem lookup_push_other (m : List (Nat × List TdmsProperty)) (oid : Nat) (p : TdmsProperty)
    (oid2 : Nat) (h : oid2 ≠ oid) :
    lookupProps (pushProperty m oid p) oid2 = lookupProps m oid2 := by
  induction m with
  | nil => simp [pushProperty, lookupProps, Ne.symm h]
  | cons e rest ih =>
    by_cases he : e.1 = oid
    · subst he
      simp [pushProperty, lookupProps, Ne.symm h]
    · by_cases he2 : e.1 = oid2
      · simp [pushProperty, lookupProps, he, he2, h]
      · simp [pushProperty, lookupProps, he, he2, h, ih]

theorem propExtends_refl (m : List (Nat × List TdmsProperty)) : PropExtends m m := by
  intro oid ps h
  exact ⟨[], by simp [h]⟩

theorem propExtends_trans {m1 m2 m3 : List (Nat × List TdmsProperty)}
    (h1 : PropExtends m1 m2) (h2 : PropExtends m2 m3) : PropExtends m1 m3 := by
  intro oid ps h
  rcases h1 oid ps h with ⟨qs, hq⟩
  rcases h2 oid (ps ++ qs) hq with ⟨rs, hr⟩
  exact ⟨qs ++ rs, by rw [hr, List.append_assoc]⟩

theorem propExtends_push (m : List (Nat × List TdmsProperty)) (oid : Nat) (p : TdmsProperty) :
    PropExtends m (pushProperty m oid p) := by
  intro oid2 ps h
  by_cases he : oid2 = oid
  · subst he
    refine ⟨[p], ?_⟩
    rw [lookup_push_self, h]
    rfl
  · exact ⟨[], by rw [lookup_push_other m oid p oid2 he, h, List.append_nil]⟩

theorem propsNonempty_push {m : List (Nat × List TdmsProperty)} (hm : PropsNonempty m)
    (oid : Nat) (p : TdmsProperty) : PropsNonempty (pushProperty m oid p) := by
  intro oid2 ps h
  by_cases he : oid2 = oid
  · subst he
    rw [lookup_push_self] at h
    intro hps
    rw [hps] at h
    simp at h
  · rw [lookup_push_other m oid p oid2 he] at h
    exact hm oid2 ps h

theorem propsNonempty_nil : PropsNonempty [] := by
  intro oid ps h
  simp [lookupProps] at h

theorem readSegmentObject_state (st : ReaderState) (s : ByteStream) (o : SegmentObject)
    (st2 : ReaderState) (s2 : ByteStream)
    (h : readSegmentObject st s = .ok (o, st2) s2) :
    st2.properties = st.properties ∧ st2.segments = st.segments := by
  simp only [readSegmentObject] at h
  cases hrs : read_string s <;> rw [hrs] at h <;> simp only [RResult.bind] at h
  case err => cases h
  case panic => cases h
  case ok path s1 =>
    cases hru : read_uint32 s1 <;> rw [hru] at h <;> simp only [RResult.bind] at h
    case err => cases h
    case panic => cases h
    case ok hdr s2x =>
      split at h
      · cases h; exact ⟨rfl, rfl⟩
      · split at h
        · split at h
          · cases h; exact ⟨rfl, rfl⟩
          · cases h
        · split at h
          · cases h
          · split at h
            · cases h
            · cases hri : read_raw_data_index s2x <;> rw [hri] at h <;>
                simp only [RResult.bind] at h
              case ok idx s3 => cases h; exact ⟨rfl, rfl⟩
              case err => cases h
              case panic => cases h

theorem stEvolves_refl (st : ReaderState) : StEvolves st st :=
  ⟨rfl, propExtends_refl _, fun h => h⟩

theorem stEvolves_trans {st1 st2 st3 : ReaderState}
    (h1 : StEvolves st1 st2) (h2 : StEvolves st2 st3) : StEvolves st1 st3 :=
  ⟨h2.1.trans h1.1, propExtends_trans h1.2.1 h2.2.1, fun h => h2.2.2 (h1.2.2 h)⟩

theorem readProperties_state (n oid : Nat) (st : ReaderState) (s : ByteStream)
    (st2 : ReaderState) (s2 : ByteStream)
    (h : readProperties n oid st s = .ok st2 s2) : StEvolves st st2 := by
  induction n generalizing st s with
  | zero =>
    simp only [readProperties] at h
    cases h
    exact stEvolves_refl _
  | succ n ih =>
    simp only [readProperties] at h
    cases hp : TdmsProperty.read s <;> rw [hp] at h <;> simp only [RResult.bind] at h
    case err => cases h
    case panic => cases h
    case ok p s1 =>
      have hstep : StEvolves st { st with properties := pushProperty st.properties oid p } :=
        ⟨rfl, propExtends_push _ _ _, fun hne => propsNonempty_push hne _ _⟩
      exact stEvolves_trans hstep (ih _ _ h)

theorem readObjectsLoop_state (n : Nat) (st : ReaderState) (s : ByteStream)
    (acc res : List SegmentObject) (st2 : ReaderState) (s2 : ByteStream)
    (h : readObjectsLoop n st s acc = .ok (res, st2) s2) : StEvolves st st2 := by
  induction n generalizing st s acc with
  | zero =>
    simp only [readObjectsLoop] at h
    cases h
    exact stEvolves_refl _
  | succ n ih =>
    simp only [readObjectsLoop] at h
    cases ho : readSegmentObject st s <;> rw [ho] at h <;> simp only [RResult.bind] at h
    case err => cases h
    case panic => cases h
    case ok os s1 =>
      cases hu : read_uint32 s1 <;> rw [hu] at h <;> simp only [RResult.bind] at h
      case err => cases h
      case panic => cases h
      case ok np s2x =>
        cases hp : readProperties np os.1.object_id os.2 s2x <;> rw [hp] at h <;>
          simp only [RResult.bind] at h
        case err => cases h
        case panic => cases h
        case ok st3 s3 =>
          have h1 := readSegmentObject_state st s os.1 os.2 s1 (by rw [ho])
          have hstep1 : StEvolves st os.2 :=
            ⟨h1.2, h1.1 ▸ propExtends_refl _, fun hne => h1.1 ▸ hne⟩
          exact stEvolves_trans hstep1
            (stEvolves_trans (readProperties_state np os.1.object_id os.2 s2x st3 s3 hp)
              (ih _ _ _ h))

theorem read_object_metadata_state (st : ReaderState) (toc : Nat) (s : ByteStream)
    (res : List SegmentObject) (st2 : ReaderState) (s2 : ByteStream)
    (h : read_object_metadata st toc s = .ok (res, st2) s2) : StEvolves st st2 := by
  simp only [read_object_metadata] at h
  split at h
  · cases hu : read_uint32 s <;> rw [hu] at h <;> simp only [RResult.bind] at h
    case err => cases h
    case panic => cases h
    case ok n s1 => exact readObjectsLoop_state n st s1 [] res st2 s2 h
  · cases h

theorem read_segment_state (st : ReaderState) (pos : Nat) (s : ByteStream)
    (o : Option TdmsSegment) (st2 : ReaderState) (s2 : ByteStream)
    (h : read_segment st pos s = .ok (o, st2) s2) : StEvolves st st2 := by
  simp only [read_segment] at h
  cases hm : readMagic s with
  | mk ob s1 =>
    rw [hm] at h
    cases ob with
    | none =>
      simp only at h
      cases h
      exact stEvolves_refl _
    | some hb =>
      simp only at h
      split at h
      · cases hu : read_uint32 s1 <;> rw [hu] at h <;> simp only [RResult.bind] at h
        case err => cases h
        case panic => cases h
        case ok toc s2x =>
          cases hv : read_int32 s2x <;> rw [hv] at h <;> simp only [RResult.bind] at h
          case err => cases h
          case panic => cases h
          case ok v s3 =>
            cases hn : read_uint64 s3 <;> rw [hn] at h <;> simp only [RResult.bind] at h
            case err => cases h
            case panic => cases h
            case ok nso s4 =>
              cases hr : read_uint64 s4 <;> rw [hr] at h <;> simp only [RResult.bind] at h
              case err => cases h
              case panic => cases h
              case ok rdo s5 =>
                split at h
                · cases hmd : read_object_metadata st toc s5 <;> rw [hmd] at h <;>
                    simp only [RResult.bind] at h
                  case err => cases h
                  case panic => cases h
                  case ok r s6 =>
                    cases h
                    exact read_object_metadata_state _ _ _ _ _ _ (by rw [hmd])
                · cases h
      · cases h

theorem readSegmentsLoop_state (fuel : Nat) (st : ReaderState) (s : ByteStream)
    (st2 : ReaderState) (s2 : ByteStream)
    (h : readSegmentsLoop fuel st s = .ok st2 s2) :
    (∃ new, st2.segments = st.segments ++ new) ∧ PropExtends st.properties st2.properties ∧
      (PropsNonempty st.properties → PropsNonempty st2.properties) := by
  induction fuel generalizing st s with
  | zero => cases h
  | succ fuel ih =>
    simp only [readSegmentsLoop] at h
    cases hs : read_segment st s.pos s <;> rw [hs] at h
    case err => cases h
    case panic => cases h
    case ok r s1 =>
      cases r with
      | mk o st1 =>
        cases o with
        | none =>
          simp only at h
          cases h
          have he := read_segment_state _ _ _ _ _ _ hs
          exact ⟨⟨[], by rw [he.1, List.append_nil]⟩, he.2⟩
        | some seg =>
          simp only at h
          have he := read_segment_state _ _ _ _ _ _ hs
          have hrec := ih _ _ h
          refine ⟨?_, ?_, ?_⟩
          · rcases hrec.1 with ⟨new, hnew⟩
            exact ⟨[seg] ++ new, by rw [hnew]; simp [he.1]⟩
          · exact propExtends_trans he.2.1 hrec.2.1
          · exact fun hne => hrec.2.2 (he.2.2 hne)

theorem ByteStream.advance_advance (s : ByteStream) (a b : Nat) :
    (s.advance a).advance b = s.advance (a + b) := by
  simp [ByteStream.advance, Nat.add_assoc]

theorem readSegmentObject_objBytes (st : ReaderState) (s : ByteStream) (p r : List Nat)
    (hp : p.length < 2 ^ 32) (h : s.rest = objBytes p ++ r) :
    ∃ ob st1, readSegmentObject st s = .ok (ob, st1) (s.advance (8 + p.length)) ∧
      st1.segments = st.segments ∧ st1.properties = st.properties ∧
      (s.advance (8 + p.length)).rest = encodeLE 4 0 ++ r := by
  have h0 : s.rest = encodeLE 4 p.length ++ p ++
      (encodeLE 4 RAW_DATA_INDEX_NO_DATA ++ (encodeLE 4 0 ++ r)) := by
    rw [h, objBytes]
    simp [List.append_assoc]
  have hstr := read_string_of_rest s p _ h0 hp
  have hhdr := read_uint32_of_rest (s.advance (4 + p.length)) RAW_DATA_INDEX_NO_DATA
    (encodeLE 4 0 ++ r) hstr.2 (by norm_num [RAW_DATA_INDEX_NO_DATA])
  refine ⟨SegmentObject.no_data (st.object_paths.get_or_create_id p).1,
    { st with object_paths := (st.object_paths.get_or_create_id p).2 }, ?_, rfl, rfl, ?_⟩
  · simp only [readSegmentObject]
    rw [hstr.1]
    simp only [RResult.bind]
    rw [hhdr.1]
    simp only [RResult.bind]
    rw [if_pos trivial]
    rw [ByteStream.advance_advance]
    have : 4 + p.length + 4 = 8 + p.length := by omega
    rw [this]
  · rw [ByteStream.advance_advance] at hhdr
    have : 4 + p.length + 4 = 8 + p.length := by omega
    rw [this] at hhdr
    exact hhdr.2

theorem objBytes_length (p : List Nat) : (objBytes p).length = 12 + p.length := by
  simp [objBytes, encodeLE_length]
  omega

theorem readObjectsLoop_objsBytes (objs : List (List Nat)) :
    ∀ (st : ReaderState) (s : ByteStream) (acc : List SegmentObject) (r : List Nat),
    (∀ p ∈ objs, p.length < 2 ^ 32) → s.rest = objsBytes objs ++ r →
    ∃ res st1, readObjectsLoop objs.length st s acc
        = .ok (res, st1) (s.advance (objsBytes objs).length) ∧
      st1.segments = st.segments := by
  induction objs with
  | nil =>
    intro st s acc r _ h
    refine ⟨acc, st, ?_, rfl⟩
    simp only [List.length_nil, readObjectsLoop, objsBytes, List.map_nil, List.flatten_nil]
    rfl
  | cons p objs ih =>
    intro st s acc r hwf h
    have hrest : s.rest = objBytes p ++ (objsBytes objs ++ r) := by
      rw [h, objsBytes]
      simp [objsBytes, List.append_assoc]
    have hob := readSegmentObject_objBytes st s p (objsBytes objs ++ r)
      (hwf p (by simp)) hrest
    rcases hob with ⟨ob, st1, hob1, hsegs1, hprops1, hrest1⟩
    have hnp := read_uint32_of_rest (s.advance (8 + p.length)) 0 (objsBytes objs ++ r)
      (by rw [hrest1]) (by norm_num)
    have hih := ih st1 ((s.advance (8 + p.length)).advance 4) (acc ++ [ob])
      r (fun q hq => hwf q (by simp [hq])) hnp.2
    rcases hih with ⟨res, st2, hih1, hsegs2⟩
    refine ⟨res, st2, ?_, by rw [hsegs2, hsegs1]⟩
    show readObjectsLoop (objs.length + 1) st s acc = _
    simp only [readObjectsLoop]
    rw [hob1]
    simp only [RResult.bind]
    rw [hnp.1]
    simp only [RResult.bind]
    simp only [readProperties]
    rw [hih1]
    rw [ByteStream.advance_advance, ByteStream.advance_advance]
    have hl : 8 + p.length + (4 + (objsBytes objs).length)
        = (objsBytes (p :: objs)).length := by
      simp [objsBytes, objBytes, encodeLE_length]
      omega
    rw [hl]

theorem segBytes_length (objs : List (List Nat)) :
    (segBytes objs).length = 28 + (metaBytes objs).length := by
  simp [segBytes, expectedHeader, encodeLE_length]
  omega

theorem read_segment_segBytes (st : ReaderState) (s : ByteStream)
    (objs : List (List Nat)) (r : List Nat)
    (hobj : objs.length < 2 ^ 32) (hps : ∀ p ∈ objs, p.length < 2 ^ 32)
    (hpos : s.pos + 28 + (metaBytes objs).length < 2 ^ 64)
    (h : s.rest = segBytes objs ++ r) :
    ∃ sobjs st1, read_segment st s.pos s
        = .ok (some ⟨s.pos + 28 + (metaBytes objs).length,
                     s.pos + 28 + (metaBytes objs).length, sobjs⟩, st1)
          (s.advance (segBytes objs).length) ∧
      st1.segments = st.segments := by
  have hL : (metaBytes objs).length < 2 ^ 64 := by omega
  have hX : s.rest = expectedHeader ++ (encodeLE 4 6 ++ (encodeLE 4 1 ++
      (encodeLE 8 (metaBytes objs).length ++ (encodeLE 8 (metaBytes objs).length ++
        (metaBytes objs ++ r))))) := by
    rw [h, segBytes]
    simp [List.append_assoc]
  have hrem : 4 ≤ s.remaining := by
    rw [ByteStream.remaining_eq, hX]
    simp [expectedHeader]
  have hmagic := readMagic_of_remaining_ge s hrem
  have hpeek : s.peek 4 = expectedHeader := by
    show (s.data.drop s.pos).take 4 = expectedHeader
    rw [show s.data.drop s.pos = s.rest from rfl, hX,
      show (4 : Nat) = expectedHeader.length from rfl, List.take_left]
  have hrest4 : (s.advance 4).rest = encodeLE 4 6 ++ (encodeLE 4 1 ++
      (encodeLE 8 (metaBytes objs).length ++ (encodeLE 8 (metaBytes objs).length ++
        (metaBytes objs ++ r)))) := by
    rw [ByteStream.rest_advance, hX,
      show (4 : Nat) = expectedHeader.length from rfl, List.drop_left]
  have htoc := read_uint32_of_rest (s.advance 4) 6 _ hrest4 (by norm_num)
  have hver := read_int32_of_rest ((s.advance 4).advance 4) 1 _ htoc.2
  rcases hver with ⟨z, hver1, hver2⟩
  have hnso := read_uint64_of_rest (((s.advance 4).advance 4).advance 4)
    (metaBytes objs).length _ hver2 hL
  have hrdo := read_uint64_of_rest ((((s.advance 4).advance 4).advance 4).advance 8)
    (metaBytes objs).length _ hnso.2 hL
  have hmeta : (((((s.advance 4).advance 4).advance 4).advance 8).advance 8).rest
      = encodeLE 4 objs.length ++ (objsBytes objs ++ r) := by
    rw [hrdo.2, metaBytes]
    simp [List.append_assoc]
  have hcnt := read_uint32_of_rest (((((s.advance 4).advance 4).advance 4).advance 8).advance 8)
    objs.length _ hmeta hobj
  have hloop := readObjectsLoop_objsBytes objs st
    ((((((s.advance 4).advance 4).advance 4).advance 8).advance 8).advance 4) [] r hps hcnt.2
  rcases hloop with ⟨res, st1, hloop1, hsegs1⟩
  refine ⟨res, st1, ?_, hsegs1⟩
  simp only [read_segment]
  rw [hmagic]
  simp only [hpeek]
  rw [if_pos trivial]
  rw [htoc.1]
  simp only [RResult.bind]
  rw [hver1]
  simp only [RResult.bind]
  rw [hnso.1]
  simp only [RResult.bind]
  rw [hrdo.1]
  simp only [RResult.bind]
  rw [if_pos (by decide)]
  simp only [read_object_metadata]
  rw [if_pos (by decide)]
  rw [hcnt.1]
  simp only [RResult.bind]
  rw [hloop1]
  simp only [RResult.bind]
  rw [Nat.mod_eq_of_lt hpos]
  simp only [ByteStream.advance_advance]
  have hlen : 4 + 4 + 4 + 8 + 8 + 4 + (objsBytes objs).length
      = (segBytes objs).length := by
    rw [segBytes_length, metaBytes]
    simp [encodeLE_length]
    omega
  rw [hlen]

theorem readSegmentsLoop_fileBytes (descs : List (List (List Nat))) :
    ∀ (pre : List Nat) (st : ReaderState), WFdescs descs →
    pre.length + (fileBytes descs).length < 2 ^ 64 →
    ∃ st1, readSegmentsLoop (descs.length + 1) st ⟨pre ++ fileBytes descs, pre.length⟩
        = .ok st1 ⟨pre ++ fileBytes descs, (pre ++ fileBytes descs).length⟩ ∧
      ∃ new, st1.segments = st.segments ++ new ∧ new.length = descs.length ∧
        new.map TdmsSegment.next_segment_position = segEnds pre.length descs := by
  induction descs with
  | nil =>
    intro pre st _ _
    refine ⟨st, ?_, [], by simp, rfl, rfl⟩
    have hfb : fileBytes [] = [] := rfl
    simp only [List.length_nil, readSegmentsLoop]
    have hrem : (⟨pre ++ fileBytes [], pre.length⟩ : ByteStream).remaining = 0 := by
      simp [ByteStream.remaining, hfb]
    have hm := readMagic_of_remaining_lt ⟨pre ++ fileBytes [], pre.length⟩
      (by rw [hrem]; omega)
    simp only [read_segment]
    rw [hm]
    simp only [hrem]
    simp [ByteStream.advance, hfb]
  | cons d ds ih =>
    intro pre st hwf hbound
    have hdata : pre ++ fileBytes (d :: ds) = pre ++ segBytes d ++ fileBytes ds := by
      simp [fileBytes, List.append_assoc]
    have hwfd := hwf d (by simp)
    have hflen : (fileBytes (d :: ds)).length
        = (segBytes d).length + (fileBytes ds).length := by
      simp [fileBytes]
    have hs : (⟨pre ++ fileBytes (d :: ds), pre.length⟩ : ByteStream).rest
        = segBytes d ++ fileBytes ds := by
      show List.drop pre.length (pre ++ fileBytes (d :: ds)) = _
      rw [hdata, List.append_assoc, List.drop_left]
    have hseg := read_segment_segBytes st ⟨pre ++ fileBytes (d :: ds), pre.length⟩
      d (fileBytes ds)
      hwfd.1 hwfd.2
      (by show pre.length + 28 + _ < 2 ^ 64
          have := segBytes_length d
          omega) hs
    rcases hseg with ⟨sobjs, st1, hseg1, hsegs1⟩
    simp only [show (⟨pre ++ fileBytes (d :: ds), pre.length⟩ : ByteStream).pos
        = pre.length from rfl,
      show (⟨pre ++ fileBytes (d :: ds), pre.length⟩ : ByteStream).advance
          (segBytes d).length
        = ⟨pre ++ fileBytes (d :: ds), pre.length + (segBytes d).length⟩ from rfl] at hseg1
    have hih := ih (pre ++ segBytes d)
      { st1 with segments := st1.segments ++
          [⟨pre.length + 28 + (metaBytes d).length,
            pre.length + 28 + (metaBytes d).length, sobjs⟩] }
      (fun e he => hwf e (by simp [he])) (by simp; omega)
    rcases hih with ⟨st2, hih1, new, hnew, hlen, hmap⟩
    refine ⟨st2, ?_, ?_⟩
    · show readSegmentsLoop (ds.length + 1 + 1) st _ = _
      simp only [readSegmentsLoop]
      rw [hseg1]
      show readSegmentsLoop (ds.length + 1)
        { st1 with segments := st1.segments ++
            [⟨pre.length + 28 + (metaBytes d).length,
              pre.length + 28 + (metaBytes d).length, sobjs⟩] }
        ⟨pre ++ fileBytes (d :: ds), pre.length + 28 + (metaBytes d).length⟩ = _
      have hpos2 : pre.length + 28 + (metaBytes d).length
          = (pre ++ segBytes d).length := by
        have := segBytes_length d
        simp
        omega
      have heq : (⟨pre ++ fileBytes (d :: ds),
          pre.length + 28 + (metaBytes d).length⟩ : ByteStream)
          = ⟨(pre ++ segBytes d) ++ fileBytes ds, (pre ++ segBytes d).length⟩ := by
        rw [hdata, hpos2]
      rw [heq]
      rw [hih1]
      rw [hdata]
    · refine ⟨⟨pre.length + 28 + (metaBytes d).length,
          pre.length + 28 + (metaBytes d).length, sobjs⟩ :: new, ?_, by simp [hlen], ?_⟩
      · rw [hnew]
        simp [hsegs1]
      · show (pre.length + 28 + (metaBytes d).length)
            :: new.map TdmsSegment.next_segment_position = segEnds pre.length (d :: ds)
        rw [hmap]
        show _ = (pre.length + (segBytes d).length)
            :: segEnds (pre.length + (segBytes d).length) ds
        have h1 : pre.length + 28 + (metaBytes d).length
            = pre.length + (segBytes d).length := by
          rw [segBytes_length]; omega
        have h2 : (pre ++ segBytes d).length = pre.length + (segBytes d).length := by simp
        rw [h1, ← h2]

theorem read_uint32_ok_stream (s : ByteStream) (v : Nat) (s1 : ByteStream)
    (h : read_uint32 s = .ok v s1) : s1 = s.advance 4 := by
  simp only [read_uint32, readBytes] at h
  split at h
  · simp only [RResult.bind] at h
    cases h
    rfl
  · simp only [RResult.bind] at h
    cases h

theorem read_uint64_ok_stream (s : ByteStream) (v : Nat) (s1 : ByteStream)
    (h : read_uint64 s = .ok v s1) : s1 = s.advance 8 := by
  simp only [read_uint64, readBytes] at h
  split at h
  · simp only [RResult.bind] at h
    cases h
    rfl
  · simp only [RResult.bind] at h
    cases h

/-- C1, corrected.  In the code, a zero-byte read at ANY point of the 4-byte
magic read — zero, one, two or three bytes in — makes `read_segment` return
the graceful no-segment outcome `Ok(None)`; a mid-magic end-of-stream is never
reported as a `TruncatedInput` error. -/
theorem c1_magic_eof_graceful (st : ReaderState) (pos : Nat) (s : ByteStream)
    (h : s.remaining < 4) :
    read_segment st pos s = .ok (none, st) (s.advance s.remaining) := by
  simp only [read_segment]
  rw [readMagic_of_remaining_lt s h]

/-- C1 counterexample: a byte source holding exactly two magic bytes — so
end-of-stream occurs after two magic bytes were read — makes `read_segment`
return the graceful no-segment outcome, not a `TruncatedInput` error as the
claim states. -/
theorem c1_counterexample :
    read_segment TdmsReader.new 0 ⟨[0x54, 0x44], 0⟩
      = .ok (none, TdmsReader.new) ⟨[0x54, 0x44], 2⟩ := by
  simp [read_segment, readMagic, readMagicLoop, ByteStream.remaining, ByteStream.peek,
    ByteStream.advance]

/-- C1 witness: the amended theorem at a concrete three-byte source. -/
theorem c1_witness :
    read_segment TdmsReader.new 5 ⟨[9, 9, 9], 0⟩
      = .ok (none, TdmsReader.new)
        (ByteStream.advance ⟨[9, 9, 9], 0⟩ (ByteStream.remaining ⟨[9, 9, 9], 0⟩)) :=
  c1_magic_eof_graceful TdmsReader.new 5 ⟨[9, 9, 9], 0⟩ (by decide)

/-- C4, corrected.  `read_raw_data_index` does reject every inline index whose
dimension field differs from 1 with an `InvalidDimension` error, but only
after also reading the 8-byte `number_of_values` field: at the error the
cursor sits 16 bytes past the start of the record, 8 bytes beyond the
dimension field (and when those 8 bytes are missing the read fails with
`TruncatedInput` instead). -/
theorem c4_dimension_guard (s : ByteStream) (dt : Nat) (ty : TdsType) (dim n : Nat)
    (s1 s2 s3 : ByteStream)
    (h1 : read_uint32 s = .ok dt s1) (h2 : TdsType.from_u32 dt = .ok ty)
    (h3 : read_uint32 s1 = .ok dim s2) (h4 : read_uint64 s2 = .ok n s3)
    (hdim : dim ≠ 1) :
    read_raw_data_index s = .err (.InvalidDimension dim) s3 ∧ s3.pos = s.pos + 16 := by
  constructor
  · simp only [read_raw_data_index]
    rw [h1]
    simp only [RResult.bind]
    rw [h2]
    rw [h3]
    simp only [RResult.bind]
    rw [h4]
    simp only [RResult.bind]
    rw [if_pos hdim]
  · rw [read_uint64_ok_stream _ _ _ h4, read_uint32_ok_stream _ _ _ h3,
      read_uint32_ok_stream _ _ _ h1]
    simp [ByteStream.advance]

/-- C4 counterexample: an inline index whose dimension field is 2 but whose
`number_of_values` bytes are absent fails with `TruncatedInput`, not with the
`InvalidDimension` error the claim demands before any further consumption. -/
theorem c4_counterexample :
    read_raw_data_index ⟨[3, 0, 0, 0, 2, 0, 0, 0], 0⟩
      = .err .TruncatedInput ⟨[3, 0, 0, 0, 2, 0, 0, 0], 8⟩ := by decide

/-- C4 witness: the amended theorem on a concrete 16-byte record with
dimension 2. -/
theorem c4_witness :
    read_raw_data_index ⟨[3, 0, 0, 0, 2, 0, 0, 0, 7, 0, 0, 0, 0, 0, 0, 0], 0⟩
        = .err (.InvalidDimension 2) ⟨[3, 0, 0, 0, 2, 0, 0, 0, 7, 0, 0, 0, 0, 0, 0, 0], 16⟩
      ∧ (⟨[3, 0, 0, 0, 2, 0, 0, 0, 7, 0, 0, 0, 0, 0, 0, 0], 16⟩ : ByteStream).pos
        = (⟨[3, 0, 0, 0, 2, 0, 0, 0, 7, 0, 0, 0, 0, 0, 0, 0], 0⟩ : ByteStream).pos + 16 :=
  c4_dimension_guard ⟨[3, 0, 0, 0, 2, 0, 0, 0, 7, 0, 0, 0, 0, 0, 0, 0], 0⟩ 3 TdsType.I32 2 7
    ⟨[3, 0, 0, 0, 2, 0, 0, 0, 7, 0, 0, 0, 0, 0, 0, 0], 4⟩
    ⟨[3, 0, 0, 0, 2, 0, 0, 0, 7, 0, 0, 0, 0, 0, 0, 0], 8⟩
    ⟨[3, 0, 0, 0, 2, 0, 0, 0, 7, 0, 0, 0, 0, 0, 0, 0], 16⟩
    (by decide) rfl (by decide) (by decide) (by decide)

/-- C7, confirmed.  The reuse cache returns exactly the id last set for an
object id, overwriting any prior mapping; other ids are untouched; an id
never set maps to nothing; and `set` grows the backing array past the object
id, so lookups are always in range. -/
theorem c7_cache (c : List (Option Nat)) (oid id : Nat) :
    get_raw_data_index (set_raw_data_index c oid id) oid = some id
    ∧ (∀ oid2, oid2 ≠ oid →
        get_raw_data_index (set_raw_data_index c oid id) oid2 = get_raw_data_index c oid2)
    ∧ get_raw_data_index [] oid = none
    ∧ oid < (set_raw_data_index c oid id).length :=
  ⟨get_set_self c oid id, fun oid2 h => get_set_other c oid id oid2 h,
    get_nil oid, set_length_gt c oid id⟩

/-- C7 witness: the cache laws at a concrete cache, including growth past the
backing array's length. -/
theorem c7_witness :
    get_raw_data_index (set_raw_data_index [none, some 5] 3 9) 3 = some 9
    ∧ get_raw_data_index (set_raw_data_index [none, some 5] 3 9) 1
        = get_raw_data_index [none, some 5] 1
    ∧ get_raw_data_index [] 3 = none
    ∧ 3 < (set_raw_data_index [none, some 5] 3 9).length :=
  ⟨(c7_cache [none, some 5] 3 9).1, (c7_cache [none, some 5] 3 9).2.1 1 (by decide),
    (c7_cache [none, some 5] 3 9).2.2.1, (c7_cache [none, some 5] 3 9).2.2.2⟩

/-- C8, confirmed.  When the 4 magic bytes are fully read but differ from the
fixed signature, `read_segment` fails with an `InvalidSegmentHeader` error
carrying the byte position at which the segment started (and the offending
bytes). -/
theorem c8_invalid_header (st : ReaderState) (pos : Nat) (s : ByteStream)
    (b : List Nat) (s1 : ByteStream)
    (hm : readMagic s = (some b, s1)) (hb : b ≠ expectedHeader) :
    read_segment st pos s = .err (.InvalidSegmentHeader pos b) s1 := by
  simp only [read_segment]
  rw [hm]
  show (if b = expectedHeader then _ else
    RResult.err (TdmsReadError.InvalidSegmentHeader pos b) s1) = _
  rw [if_neg hb]

/-- C8 witness: a concrete source whose first four bytes are not the magic. -/
theorem c8_witness :
    read_segment TdmsReader.new 7 ⟨[1, 2, 3, 4, 5], 0⟩
      = .err (.InvalidSegmentHeader 7 [1, 2, 3, 4]) ⟨[1, 2, 3, 4, 5], 4⟩ :=
  c8_invalid_header TdmsReader.new 7 ⟨[1, 2, 3, 4, 5], 0⟩ [1, 2, 3, 4] ⟨[1, 2, 3, 4, 5], 4⟩
    (by simp [readMagic, readMagicLoop, ByteStream.remaining, ByteStream.peek,
      ByteStream.advance])
    (by decide)

/-- C3, confirmed.  For an object whose raw-data-index header is the
"matches previous" sentinel `0x00000000`: when the cache holds an id for the
object, the emitted `SegmentObject` carries exactly that id — and the cache
always returns the id most recently set for the object (third conjunct);
when the cache holds nothing for the object, decoding fails with the
`MissingPreviousIndex` error. -/
theorem c3_matches_previous (st : ReaderState) (s : ByteStream) (path : List Nat)
    (s1 s2 : ByteStream)
    (hs : read_string s = .ok path s1)
    (hh : read_uint32 s1 = .ok RAW_DATA_INDEX_MATCHES_PREVIOUS s2) :
    (∀ id, get_raw_data_index st.raw_data_index_cache
        (st.object_paths.get_or_create_id path).1 = some id →
      readSegmentObject st s
        = .ok (SegmentObject.with_data (st.object_paths.get_or_create_id path).1 id,
            { st with object_paths := (st.object_paths.get_or_create_id path).2 }) s2)
    ∧ (get_raw_data_index st.raw_data_index_cache
        (st.object_paths.get_or_create_id path).1 = none →
      readSegmentObject st s = .err .MissingPreviousIndex s2)
    ∧ (∀ c oid id, get_raw_data_index (set_raw_data_index c oid id) oid = some id) := by
  refine ⟨?_, ?_, fun c oid id => get_set_self c oid id⟩
  · intro id hid
    simp only [readSegmentObject]
    rw [hs]
    simp only [RResult.bind]
    rw [hh]
    simp only [RResult.bind]
    rw [if_neg (by decide)]
    rw [if_pos trivial]
    rw [hid]
  · intro hid
    simp only [readSegmentObject]
    rw [hs]
    simp only [RResult.bind]
    rw [hh]
    simp only [RResult.bind]
    rw [if_neg (by decide)]
    rw [if_pos trivial]
    rw [hid]

/-- C3 witness: a cache holding id 3 for the object yields the cached id; an
empty cache yields the `MissingPreviousIndex` error. -/
theorem c3_witness :
    readSegmentObject ⟨[], ⟨[[]]⟩, [], [some 3], []⟩ ⟨[0, 0, 0, 0, 0, 0, 0, 0], 0⟩
        = .ok (SegmentObject.with_data 0 3, ⟨[], ⟨[[]]⟩, [], [some 3], []⟩)
          ⟨[0, 0, 0, 0, 0, 0, 0, 0], 8⟩
    ∧ readSegmentObject TdmsReader.new ⟨[0, 0, 0, 0, 0, 0, 0, 0], 0⟩
        = .err .MissingPreviousIndex ⟨[0, 0, 0, 0, 0, 0, 0, 0], 8⟩ :=
  ⟨(c3_matches_previous ⟨[], ⟨[[]]⟩, [], [some 3], []⟩ ⟨[0, 0, 0, 0, 0, 0, 0, 0], 0⟩ []
      ⟨[0, 0, 0, 0, 0, 0, 0, 0], 4⟩ ⟨[0, 0, 0, 0, 0, 0, 0, 0], 8⟩
      (by decide) (by decide)).1 3 (by decide),
   (c3_matches_previous TdmsReader.new ⟨[0, 0, 0, 0, 0, 0, 0, 0], 0⟩ []
      ⟨[0, 0, 0, 0, 0, 0, 0, 0], 4⟩ ⟨[0, 0, 0, 0, 0, 0, 0, 0], 8⟩
      (by decide) (by decide)).2.1 (by decide)⟩

/-- C5, confirmed.  Every successfully decoded inline raw-data-index record
satisfies the shape size law: for a type of fixed width `w`, `data_size` is
the u64 product of `w` and `number_of_values`; for the string type (the only
successfully decoded type without a fixed width), `data_size` is exactly the
additional u64 read from the stream after the three header fields,
independent of `number_of_values`. -/
theorem c5_shape_size_law (s : ByteStream) (r : RawDataIndex) (s1 : ByteStream)
    (h : read_raw_data_index s = .ok r s1) :
    (∀ w, r.data_type.size = some w →
      r.data_size = (w * r.number_of_values) % 2 ^ 64)
    ∧ (r.data_type.size = none → r.data_type = TdsType.String ∧
        read_uint64 (s.advance 16) = .ok r.data_size s1) := by
  simp only [read_raw_data_index] at h
  cases h1 : read_uint32 s <;> rw [h1] at h <;> simp only [RResult.bind] at h
  case err => cases h
  case panic => cases h
  case ok dt sa =>
    cases h2 : TdsType.from_u32 dt <;> rw [h2] at h
    case error => cases h
    case ok ty =>
      cases h3 : read_uint32 sa <;> rw [h3] at h <;> simp only [RResult.bind] at h
      case err => cases h
      case panic => cases h
      case ok dim sb =>
        cases h4 : read_uint64 sb <;> rw [h4] at h <;> simp only [RResult.bind] at h
        case err => cases h
        case panic => cases h
        case ok n sc =>
          split at h
          · cases h
          · have hsc : sc = s.advance 16 := by
              rw [read_uint64_ok_stream _ _ _ h4, read_uint32_ok_stream _ _ _ h3,
                read_uint32_ok_stream _ _ _ h1]
              simp [ByteStream.advance_advance]
            split at h
            · rename_i w hsz
              cases h
              refine ⟨?_, ?_⟩
              · intro w2 hw2
                rw [hsz] at hw2
                cases hw2
                rfl
              · intro hnone
                rw [hsz] at hnone
                cases hnone
            · rename_i hsz
              split at h
              · rename_i hstr
                cases h5 : read_uint64 sc <;> rw [h5] at h <;>
                  simp only [RResult.bind] at h
                case err => cases h
                case panic => cases h
                case ok ds sd =>
                  cases h
                  refine ⟨?_, fun _ => ⟨hstr, ?_⟩⟩
                  · intro w2 hw2
                    rw [hsz] at hw2
                    cases hw2
                  · rw [← hsc]
                    exact h5
              · cases h

theorem read_segment_bad_header (st : ReaderState) (pos : Nat) (s : ByteStream)
    (b : List Nat) (s1 : ByteStream)
    (hm : readMagic s = (some b, s1)) (hb : b ≠ expectedHeader) :
    read_segment st pos s = .err (.InvalidSegmentHeader pos b) s1 := by
  simp only [read_segment]
  rw [hm]
  show (if b = expectedHeader then _ else
    RResult.err (TdmsReadError.InvalidSegmentHeader pos b) s1) = _
  rw [if_neg hb]

theorem read_segment_unfold (st : ReaderState) (pos : Nat) (s : ByteStream)
    (b : List Nat) (s1 : ByteStream) (toc : Nat) (s2 : ByteStream) (z : Int)
    (s3 : ByteStream) (nso : Nat) (s4 : ByteStream) (rdo : Nat) (s5 : ByteStream)
    (hm : readMagic s = (some b, s1)) (hbe : b = expectedHeader)
    (ht : read_uint32 s1 = .ok toc s2) (hv : read_int32 s2 = .ok z s3)
    (hn : read_uint64 s3 = .ok nso s4) (hr : read_uint64 s4 = .ok rdo s5) :
    read_segment st pos s
      = if hasFlag toc kTocMetaData = true then
          (read_object_metadata st toc s5).bind fun r s6 =>
            .ok (some ⟨(pos + 28 + rdo) % 2 ^ 64, (pos + 28 + nso) % 2 ^ 64, r.1⟩, r.2) s6
        else .panic := by
  subst hbe
  simp only [read_segment]
  rw [hm]
  show (if expectedHeader = expectedHeader then _ else _) = _
  rw [if_pos rfl]
  rw [ht]
  simp only [RResult.bind]
  rw [hv]
  simp only [RResult.bind]
  rw [hn]
  simp only [RResult.bind]
  rw [hr]

/-- C6, confirmed.  A successfully decoded segment starting at byte position
`pos` has `next_segment_position` and `data_position` equal (as u64 values)
to `pos + 28 + next_segment_offset` and `pos + 28 + raw_data_offset`, the two
u64 offsets of the lead-in taken relative to the end of the 28-byte
lead-in. -/
theorem c6_positions (st : ReaderState) (pos : Nat) (s : ByteStream)
    (b : List Nat) (s1 : ByteStream) (toc : Nat) (s2 : ByteStream) (z : Int)
    (s3 : ByteStream) (nso : Nat) (s4 : ByteStream) (rdo : Nat) (s5 : ByteStream)
    (seg : TdmsSegment) (st2 : ReaderState) (s6 : ByteStream)
    (hm : readMagic s = (some b, s1))
    (ht : read_uint32 s1 = .ok toc s2) (hv : read_int32 s2 = .ok z s3)
    (hn : read_uint64 s3 = .ok nso s4) (hr : read_uint64 s4 = .ok rdo s5)
    (h : read_segment st pos s = .ok (some seg, st2) s6) :
    seg.next_segment_position = (pos + 28 + nso) % 2 ^ 64 ∧
      seg.data_position = (pos + 28 + rdo) % 2 ^ 64 := by
  by_cases hbe : b = expectedHeader
  · rw [read_segment_unfold st pos s b s1 toc s2 z s3 nso s4 rdo s5 hm hbe ht hv hn hr] at h
    split at h
    · cases hmd : read_object_metadata st toc s5 <;> rw [hmd] at h <;>
        simp only [RResult.bind] at h
      · cases h; exact ⟨rfl, rfl⟩
      · cases h
      · cases h
    · cases h
  · rw [read_segment_bad_header st pos s b s1 hm hbe] at h
    cases h

/-- C6 witness: a concrete 32-byte single-segment file decoded at position 0
with both offsets equal to 4. -/
theorem c6_witness :
    (⟨36, 36, []⟩ : TdmsSegment).next_segment_position = (2 + 28 + 6) % 2 ^ 64 ∧
      (⟨36, 36, []⟩ : TdmsSegment).data_position = (2 + 28 + 6) % 2 ^ 64 :=
  c6_positions TdmsReader.new 2
    ⟨[0x54, 0x44, 0x53, 0x6d, 6, 0, 0, 0, 1, 0, 0, 0, 6, 0, 0, 0, 0, 0, 0, 0,
      6, 0, 0, 0, 0, 0, 0, 0, 0, 0, 0, 0], 0⟩
    expectedHeader
    ⟨[0x54, 0x44, 0x53, 0x6d, 6, 0, 0, 0, 1, 0, 0, 0, 6, 0, 0, 0, 0, 0, 0, 0,
      6, 0, 0, 0, 0, 0, 0, 0, 0, 0, 0, 0], 4⟩
    6
    ⟨[0x54, 0x44, 0x53, 0x6d, 6, 0, 0, 0, 1, 0, 0, 0, 6, 0, 0, 0, 0, 0, 0, 0,
      6, 0, 0, 0, 0, 0, 0, 0, 0, 0, 0, 0], 8⟩
    1
    ⟨[0x54, 0x44, 0x53, 0x6d, 6, 0, 0, 0, 1, 0, 0, 0, 6, 0, 0, 0, 0, 0, 0, 0,
      6, 0, 0, 0, 0, 0, 0, 0, 0, 0, 0, 0], 12⟩
    6
    ⟨[0x54, 0x44, 0x53, 0x6d, 6, 0, 0, 0, 1, 0, 0, 0, 6, 0, 0, 0, 0, 0, 0, 0,
      6, 0, 0, 0, 0, 0, 0, 0, 0, 0, 0, 0], 20⟩
    6
    ⟨[0x54, 0x44, 0x53, 0x6d, 6, 0, 0, 0, 1, 0, 0, 0, 6, 0, 0, 0, 0, 0, 0, 0,
      6, 0, 0, 0, 0, 0, 0, 0, 0, 0, 0, 0], 28⟩
    ⟨36, 36, []⟩ TdmsReader.new
    ⟨[0x54, 0x44, 0x53, 0x6d, 6, 0, 0, 0, 1, 0, 0, 0, 6, 0, 0, 0, 0, 0, 0, 0,
      6, 0, 0, 0, 0, 0, 0, 0, 0, 0, 0, 0], 32⟩
    (by simp [readMagic, readMagicLoop, ByteStream.remaining, ByteStream.peek,
      ByteStream.advance, expectedHeader])
    (by decide) (by decide) (by decide) (by decide)
    (by simp [read_segment, readMagic, readMagicLoop, ByteStream.remaining,
      ByteStream.peek, ByteStream.advance, read_uint32, read_int32, read_uint64,
      readBytes, leValue, RResult.bind, hasFlag, kTocMetaData, kTocNewObjList,
      read_object_metadata, readObjectsLoop, expectedHeader, TdmsReader.new])

/-- C5 witness: the law at a concrete fixed-width (i32, count 5, size 20)
record and at a concrete string record (inline length 99). -/
theorem c5_witness :
    ((∀ w, (RawDataIndex.mk 5 TdsType.I32 20).data_type.size = some w →
        (RawDataIndex.mk 5 TdsType.I32 20).data_size
          = (w * (RawDataIndex.mk 5 TdsType.I32 20).number_of_values) % 2 ^ 64)
      ∧ ((RawDataIndex.mk 5 TdsType.I32 20).data_type.size = none →
          (RawDataIndex.mk 5 TdsType.I32 20).data_type = TdsType.String ∧
          read_uint64 ((⟨[3, 0, 0, 0, 1, 0, 0, 0, 5, 0, 0, 0, 0, 0, 0, 0], 0⟩ :
              ByteStream).advance 16)
            = .ok (RawDataIndex.mk 5 TdsType.I32 20).data_size
              ⟨[3, 0, 0, 0, 1, 0, 0, 0, 5, 0, 0, 0, 0, 0, 0, 0], 16⟩))
    ∧ ((∀ w, (RawDataIndex.mk 5 TdsType.String 99).data_type.size = some w →
        (RawDataIndex.mk 5 TdsType.String 99).data_size
          = (w * (RawDataIndex.mk 5 TdsType.String 99).number_of_values) % 2 ^ 64)
      ∧ ((RawDataIndex.mk 5 TdsType.String 99).data_type.size = none →
          (RawDataIndex.mk 5 TdsType.String 99).data_type = TdsType.String ∧
          read_uint64 ((⟨[0x20, 0, 0, 0, 1, 0, 0, 0, 5, 0, 0, 0, 0, 0, 0, 0,
              99, 0, 0, 0, 0, 0, 0, 0], 0⟩ : ByteStream).advance 16)
            = .ok (RawDataIndex.mk 5 TdsType.String 99).data_size
              ⟨[0x20, 0, 0, 0, 1, 0, 0, 0, 5, 0, 0, 0, 0, 0, 0, 0,
                99, 0, 0, 0, 0, 0, 0, 0], 24⟩)) :=
  ⟨c5_shape_size_law ⟨[3, 0, 0, 0, 1, 0, 0, 0, 5, 0, 0, 0, 0, 0, 0, 0], 0⟩
      (RawDataIndex.mk 5 TdsType.I32 20)
      ⟨[3, 0, 0, 0, 1, 0, 0, 0, 5, 0, 0, 0, 0, 0, 0, 0], 16⟩ (by decide),
   c5_shape_size_law ⟨[0x20, 0, 0, 0, 1, 0, 0, 0, 5, 0, 0, 0, 0, 0, 0, 0,
        99, 0, 0, 0, 0, 0, 0, 0], 0⟩
      (RawDataIndex.mk 5 TdsType.String 99)
      ⟨[0x20, 0, 0, 0, 1, 0, 0, 0, 5, 0, 0, 0, 0, 0, 0, 0,
        99, 0, 0, 0, 0, 0, 0, 0], 24⟩ (by decide)⟩

/-- C2, corrected.  The three recognized-but-unsupported wire features the
claim names do NOT fail by returning a `NotImplemented` error: the code hits
`unimplemented!` and panics.  First conjunct: a segment whose TOC mask lacks
the "has metadata" flag panics after the lead-in; second: a metadata block
whose TOC mask lacks the "has new object list" flag panics; third: an object
whose raw-data-index header is one of the scaler sentinels `0x00001269` /
`0x0000126A` panics. -/
theorem c2_unimplemented_panics :
    (∀ (st : ReaderState) (pos : Nat) (s : ByteStream) (s1 : ByteStream) (toc : Nat)
      (s2 : ByteStream) (z : Int) (s3 : ByteStream) (a : Nat) (s4 : ByteStream)
      (b2 : Nat) (s5 : ByteStream),
      readMagic s = (some expectedHeader, s1) →
      read_uint32 s1 = .ok toc s2 → read_int32 s2 = .ok z s3 →
      read_uint64 s3 = .ok a s4 → read_uint64 s4 = .ok b2 s5 →
      hasFlag toc kTocMetaData = false →
      read_segment st pos s = .panic)
    ∧ (∀ (st : ReaderState) (toc : Nat) (s : ByteStream),
        hasFlag toc kTocNewObjList = false → read_object_metadata st toc s = .panic)
    ∧ (∀ (st : ReaderState) (s : ByteStream) (path : List Nat) (s1 : ByteStream)
        (hdr : Nat) (s2 : ByteStream),
        read_string s = .ok path s1 → read_uint32 s1 = .ok hdr s2 →
        (hdr = FORMAT_CHANGING_SCALER ∨ hdr = DIGITAL_LINE_SCALER) →
        readSegmentObject st s = .panic) := by
  refine ⟨?_, ?_, ?_⟩
  · intro st pos s s1 toc s2 z s3 a s4 b2 s5 hm ht hv hn hr hflag
    rw [read_segment_unfold st pos s expectedHeader s1 toc s2 z s3 a s4 b2 s5
      hm rfl ht hv hn hr]
    rw [hflag]
    simp
  · intro st toc s hflag
    simp only [read_object_metadata]
    rw [hflag]
    simp
  · intro st s path s1 hdr s2 hs hh hscaler
    simp only [readSegmentObject]
    rw [hs]
    simp only [RResult.bind]
    rw [hh]
    simp only [RResult.bind]
    rcases hscaler with h1 | h1 <;> subst h1
    · rw [if_neg (by decide), if_neg (by decide), if_pos rfl]
    · rw [if_neg (by decide), if_neg (by decide), if_neg (by decide), if_pos rfl]

/-- C2 counterexample: a concrete segment whose TOC mask is 0 (no "has
metadata" flag) makes the decode panic — it does not return an error value to
the caller, contradicting the claim that such input yields a `NotImplemented`
error and never a panic. -/
theorem c2_counterexample :
    read_segment TdmsReader.new 0
      ⟨[0x54, 0x44, 0x53, 0x6d, 0, 0, 0, 0, 1, 0, 0, 0, 4, 0, 0, 0, 0, 0, 0, 0,
        4, 0, 0, 0, 0, 0, 0, 0], 0⟩ = RResult.panic := by
  simp [read_segment, readMagic, readMagicLoop, ByteStream.remaining, ByteStream.peek,
    ByteStream.advance, read_uint32, read_int32, read_uint64, readBytes, leValue,
    RResult.bind, hasFlag, kTocMetaData, expectedHeader]

/-- C2 witness: the amended theorem's three panic cases at concrete inputs. -/
theorem c2_witness :
    read_segment TdmsReader.new 0
        ⟨[0x54, 0x44, 0x53, 0x6d, 8, 0, 0, 0, 1, 0, 0, 0, 4, 0, 0, 0, 0, 0, 0, 0,
          4, 0, 0, 0, 0, 0, 0, 0], 0⟩ = RResult.panic
    ∧ read_object_metadata TdmsReader.new 2 ⟨[], 0⟩ = RResult.panic
    ∧ readSegmentObject TdmsReader.new ⟨[0, 0, 0, 0, 0x69, 0x12, 0, 0], 0⟩
        = RResult.panic :=
  ⟨c2_unimplemented_panics.1 TdmsReader.new 0
      ⟨[0x54, 0x44, 0x53, 0x6d, 8, 0, 0, 0, 1, 0, 0, 0, 4, 0, 0, 0, 0, 0, 0, 0,
        4, 0, 0, 0, 0, 0, 0, 0], 0⟩
      ⟨[0x54, 0x44, 0x53, 0x6d, 8, 0, 0, 0, 1, 0, 0, 0, 4, 0, 0, 0, 0, 0, 0, 0,
        4, 0, 0, 0, 0, 0, 0, 0], 4⟩ 8
      ⟨[0x54, 0x44, 0x53, 0x6d, 8, 0, 0, 0, 1, 0, 0, 0, 4, 0, 0, 0, 0, 0, 0, 0,
        4, 0, 0, 0, 0, 0, 0, 0], 8⟩ 1
      ⟨[0x54, 0x44, 0x53, 0x6d, 8, 0, 0, 0, 1, 0, 0, 0, 4, 0, 0, 0, 0, 0, 0, 0,
        4, 0, 0, 0, 0, 0, 0, 0], 12⟩ 4
      ⟨[0x54, 0x44, 0x53, 0x6d, 8, 0, 0, 0, 1, 0, 0, 0, 4, 0, 0, 0, 0, 0, 0, 0,
        4, 0, 0, 0, 0, 0, 0, 0], 20⟩ 4
      ⟨[0x54, 0x44, 0x53, 0x6d, 8, 0, 0, 0, 1, 0, 0, 0, 4, 0, 0, 0, 0, 0, 0, 0,
        4, 0, 0, 0, 0, 0, 0, 0], 28⟩
      (by simp [readMagic, readMagicLoop, ByteStream.remaining, ByteStream.peek,
        ByteStream.advance, expectedHeader])
      (by decide) (by decide) (by decide) (by decide) (by decide),
   c2_unimplemented_panics.2.1 TdmsReader.new 2 ⟨[], 0⟩ (by decide),
   c2_unimplemented_panics.2.2 TdmsReader.new ⟨[0, 0, 0, 0, 0x69, 0x12, 0, 0], 0⟩
      [] ⟨[0, 0, 0, 0, 0x69, 0x12, 0, 0], 4⟩ 0x1269 ⟨[0, 0, 0, 0, 0x69, 0x12, 0, 0], 8⟩
      (by decide) (by decide) (Or.inl rfl)⟩

/-- C9, confirmed.  First conjunct: any successful run of the segment loop
only APPENDS to the segments list — records already pushed are never mutated
or removed.  Second conjunct: decoding a well-formed synthetic file of N
segments yields exactly N `TdmsSegment` records, and their
`next_segment_position` values are precisely the successive segment
boundaries of the file, i.e. the records sit in file order, one per
segment. -/
theorem c9_segment_list :
    (∀ (fuel : Nat) (st : ReaderState) (s : ByteStream) (st2 : ReaderState)
      (s2 : ByteStream),
      readSegmentsLoop fuel st s = .ok st2 s2 → ∃ new, st2.segments = st.segments ++ new)
    ∧ (∀ descs, WFdescs descs → (fileBytes descs).length < 2 ^ 64 →
      ∃ st1, read_metadata (descs.length + 1) ⟨fileBytes descs, 0⟩
          = .ok st1 ⟨fileBytes descs, (fileBytes descs).length⟩ ∧
        st1.segments.length = descs.length ∧
        st1.segments.map TdmsSegment.next_segment_position = segEnds 0 descs) := by
  constructor
  · intro fuel st s st2 s2 h
    exact (readSegmentsLoop_state fuel st s st2 s2 h).1
  · intro descs hwf hlen
    rcases readSegmentsLoop_fileBytes descs [] TdmsReader.new hwf (by simpa using hlen)
      with ⟨st1, hrun, new, hnew, hcount, hmap⟩
    refine ⟨st1, ?_, ?_, ?_⟩
    · exact hrun
    · rw [hnew]
      simp [TdmsReader.new, hcount]
    · rw [hnew]
      show ([] ++ new).map TdmsSegment.next_segment_position = segEnds 0 descs
      simpa using hmap

/-- C9 witness: the append-only law at a trivially successful empty run, and
the synthetic-file law at a concrete two-segment file (one segment declaring
a one-byte path, one empty). -/
theorem c9_witness :
    (∃ new, TdmsReader.new.segments = TdmsReader.new.segments ++ new)
    ∧ (∃ st1, read_metadata 3 ⟨fileBytes [[[65]], []], 0⟩
          = .ok st1 ⟨fileBytes [[[65]], []], (fileBytes [[[65]], []]).length⟩ ∧
        st1.segments.length = 2 ∧
        st1.segments.map TdmsSegment.next_segment_position = segEnds 0 [[[65]], []]) :=
  ⟨c9_segment_list.1 1 TdmsReader.new ⟨[], 0⟩ TdmsReader.new ⟨[], 0⟩
      (by simp [readSegmentsLoop, read_segment, readMagic, readMagicLoop,
        ByteStream.remaining]),
   c9_segment_list.2 [[[65]], []] (by unfold WFdescs; decide) (by decide)⟩

/-- C10, confirmed.  First conjunct: after any successful decode, every entry
of the property store holds a nonempty list — an object with no decoded
property has no entry at all.  Second: across any successful run of the
segment loop, existing entries are only ever extended on the right, never
replaced, reordered or deleted.  Third and fourth: one property push appends
to exactly its object's list (creating a singleton entry when absent) and
leaves every other object's entry untouched. -/
theorem c10_property_store :
    (∀ (fuel : Nat) (s : ByteStream) (st2 : ReaderState) (s2 : ByteStream),
      read_metadata fuel s = .ok st2 s2 →
      ∀ oid ps, lookupProps st2.properties oid = some ps → ps ≠ [])
    ∧ (∀ (fuel : Nat) (st : ReaderState) (s : ByteStream) (st2 : ReaderState)
        (s2 : ByteStream),
      readSegmentsLoop fuel st s = .ok st2 s2 → PropExtends st.properties st2.properties)
    ∧ (∀ m oid p, lookupProps (pushProperty m oid p) oid
        = some ((lookupProps m oid).getD [] ++ [p]))
    ∧ (∀ m oid p oid2, oid2 ≠ oid →
        lookupProps (pushProperty m oid p) oid2 = lookupProps m oid2) := by
  refine ⟨?_, ?_, fun m oid p => lookup_push_self m oid p,
    fun m oid p oid2 h => lookup_push_other m oid p oid2 h⟩
  · intro fuel s st2 s2 h oid ps hl
    exact (readSegmentsLoop_state fuel TdmsReader.new s st2 s2 h).2.2
      propsNonempty_nil oid ps hl
  · intro fuel st s st2 s2 h
    exact (readSegmentsLoop_state fuel st s st2 s2 h).2.1

/-- C10 witness: the store laws at concrete inputs — an empty decode, a push
into an empty store, and a push leaving another id untouched. -/
theorem c10_witness :
    (∀ oid ps, lookupProps TdmsReader.new.properties oid = some ps → ps ≠ [])
    ∧ PropExtends TdmsReader.new.properties TdmsReader.new.properties
    ∧ lookupProps (pushProperty [] 0 ⟨[], TdsType.I32, []⟩) 0
        = some ((lookupProps [] 0).getD [] ++ [⟨[], TdsType.I32, []⟩])
    ∧ lookupProps (pushProperty [] 0 ⟨[], TdsType.I32, []⟩) 1 = lookupProps [] 1 :=
  ⟨c10_property_store.1 1 ⟨[], 0⟩ TdmsReader.new ⟨[], 0⟩
      (by simp [read_metadata, readSegmentsLoop, read_segment, readMagic, readMagicLoop,
        ByteStream.remaining]),
   c10_property_store.2.1 1 TdmsReader.new ⟨[], 0⟩ TdmsReader.new ⟨[], 0⟩
      (by simp [readSegmentsLoop, read_segment, readMagic, readMagicLoop,
        ByteStream.remaining]),
   c10_property_store.2.2.1 [] 0 ⟨[], TdsType.I32, []⟩,
   c10_property_store.2.2.2 [] 0 ⟨[], TdsType.I32, []⟩ 1 (by decide)⟩
